import Mathlib

/-!
Verification of the subdivision-mesh topology builder and the lazy
evaluation cache declared in `kernels/common/scene_subdiv_mesh.h`.

Machine integers are modelled as `Nat` with explicit bounds (`< 2^32`,
`% 2^64`) where overflow matters; `float` quantities are modelled as `ℚ`
(all arithmetic the claims touch is exact on the inputs involved).
-/

/-- Auxiliary arithmetic fact: or-ing a shifted value with a small value
is addition (the bit ranges are disjoint). -/
lemma shiftLeft_lor_eq_add : ∀ (k a b : Nat), b < 2 ^ k → (a <<< k) ||| b = a <<< k + b := by
  intro k
  induction k with
  | zero =>
    intro a b hb
    have hb0 : b = 0 := by simpa using hb
    subst hb0
    simp
  | succ k ih =>
    intro a b hb
    have hdecomp : Nat.bit b.bodd b.div2 = b := Nat.bit_decomp b
    have hdiv2lt : b.div2 < 2 ^ k := by
      rw [Nat.div2_val]
      rw [pow_succ] at hb
      omega
    have hshift : a <<< (k + 1) = Nat.bit false (a <<< k) := by
      simp [Nat.shiftLeft_eq, Nat.bit_val, pow_succ]
      ring
    calc a <<< (k + 1) ||| b
        = Nat.bit false (a <<< k) ||| Nat.bit b.bodd b.div2 := by rw [hshift, hdecomp]
      _ = Nat.bit (false || b.bodd) ((a <<< k) ||| b.div2) := Nat.lor_bit _ _ _ _
      _ = Nat.bit b.bodd (a <<< k + b.div2) := by rw [ih _ _ hdiv2lt, Bool.false_or]
      _ = a <<< (k + 1) + b := by
          rw [hshift, Nat.bit_val, Nat.bit_val, ← hdecomp, Nat.bit_val]
          rcases b.bodd <;> simp <;> omega

namespace SubdivMesh

/-- `SubdivMesh::Edge` (scene_subdiv_mesh.h, lines 38-54): start and end
vertex of an edge.  The fields are `uint32_t` in the source; the bound
`< 2^32` is carried as a hypothesis where it matters. -/
structure Edge where
  v0 : Nat
  v1 : Nat
deriving DecidableEq

/-- `Edge::operator uint64_t` (scene_subdiv_mesh.h, lines 45-50):
`p0 := v0; p1 := v1; if (p0 < p1) std::swap(p0,p1);
return ((uint64_t)p0 << 32) | (uint64_t)p1`, computed in 64-bit
arithmetic (hence the `% 2^64`). -/
def Edge.key (e : Edge) : Nat :=
  let p0 := if e.v0 < e.v1 then e.v1 else e.v0
  let p1 := if e.v0 < e.v1 then e.v0 else e.v1
  ((p0 <<< 32) ||| p1) % 2 ^ 64

/-- For 32-bit inputs the key computes `max * 2^32 + min` exactly. -/
lemma Edge.key_eq (v0 v1 : Nat) (h0 : v0 < 2 ^ 32) (h1 : v1 < 2 ^ 32) :
    (Edge.mk v0 v1).key = max v0 v1 * 2 ^ 32 + min v0 v1 := by
  have hmin : min v0 v1 < 2 ^ 32 := by omega
  unfold Edge.key
  have hp0 : (if v0 < v1 then v1 else v0) = max v0 v1 := by
    split <;> omega
  have hp1 : (if v0 < v1 then v0 else v1) = min v0 v1 := by
    split <;> omega
  simp only [hp0, hp1]
  rw [shiftLeft_lor_eq_add 32 _ _ hmin, Nat.shiftLeft_eq]
  have hlt : max v0 v1 * 2 ^ 32 + min v0 v1 < 2 ^ 64 := by
    have : max v0 v1 * 2 ^ 32 ≤ (2 ^ 32 - 1) * 2 ^ 32 :=
      Nat.mul_le_mul_right _ (by omega)
    omega
  exact Nat.mod_eq_of_lt hlt

/-- C4: the unordered edge key of `Edge(v0,v1)` carries the larger vertex id
in its high 32 bits and the smaller in its low 32 bits, and is the same for
`Edge(v0,v1)` and `Edge(v1,v0)`. -/
theorem C4_edge_key_unordered (v0 v1 : Nat) (h0 : v0 < 2 ^ 32) (h1 : v1 < 2 ^ 32) :
    (Edge.mk v0 v1).key / 2 ^ 32 = max v0 v1 ∧
    (Edge.mk v0 v1).key % 2 ^ 32 = min v0 v1 ∧
    (Edge.mk v0 v1).key = (Edge.mk v1 v0).key := by
  have e1 := Edge.key_eq v0 v1 h0 h1
  have e2 := Edge.key_eq v1 v0 h1 h0
  refine ⟨?_, ?_, ?_⟩
  · rw [e1]; omega
  · rw [e1]; omega
  · rw [e1, e2]; omega

theorem C4_edge_key_unordered_witness :
    (3 : Nat) < 2 ^ 32 ∧ (7 : Nat) < 2 ^ 32 ∧
    ((Edge.mk 3 7).key / 2 ^ 32 = max 3 7 ∧
     (Edge.mk 3 7).key % 2 ^ 32 = min 3 7 ∧
     (Edge.mk 3 7).key = (Edge.mk 7 3).key) :=
  ⟨by decide, by decide, C4_edge_key_unordered 3 7 (by decide) (by decide)⟩

/-- C9: the unordered edge key is injective on unordered 32-bit vertex
pairs: two keys agree iff the endpoint pairs agree up to direction. -/
theorem C9_edge_key_injective (v0 v1 w0 w1 : Nat)
    (hv0 : v0 < 2 ^ 32) (hv1 : v1 < 2 ^ 32) (hw0 : w0 < 2 ^ 32) (hw1 : w1 < 2 ^ 32) :
    (Edge.mk v0 v1).key = (Edge.mk w0 w1).key ↔
      (v0 = w0 ∧ v1 = w1) ∨ (v0 = w1 ∧ v1 = w0) := by
  rw [Edge.key_eq v0 v1 hv0 hv1, Edge.key_eq w0 w1 hw0 hw1]
  omega

theorem C9_edge_key_injective_witness :
    (5 : Nat) < 2 ^ 32 ∧ (9 : Nat) < 2 ^ 32 ∧
    ((Edge.mk 5 9).key = (Edge.mk 9 5).key ↔
      ((5 : Nat) = 9 ∧ (9 : Nat) = 5) ∨ ((5 : Nat) = 5 ∧ (9 : Nat) = 9)) :=
  ⟨by decide, by decide,
    C9_edge_key_injective 5 9 9 5 (by decide) (by decide) (by decide) (by decide)⟩

/-! ### Tessellation level provider (C2) -/

/-- Modelled from the spec: embree's float `clamp` helper (math library, not
under src/) — "return its value clamped to [1, 4096]"; the standard
`clamp(x, lower, upper) = max(lower, min(x, upper))`. -/
def clamp (x lower upper : ℚ) : ℚ := max lower (min x upper)

/-- Tessellation-level state of a `SubdivMesh`: the optional per-half-edge
`levels` buffer and the constant `tessellationRate` used when `levels` is
not set (scene_subdiv_mesh.h, lines 203-205). -/
structure LevelState where
  levels : Option (Nat → ℚ)
  tessellationRate : ℚ

/-- `SubdivMesh::getEdgeLevel` (scene_subdiv_mesh.h, lines 159-163):
`if (levels) return clamp(levels[i],1.0f,4096.0f);
else return clamp(tessellationRate,1.0f,4096.0f);`. -/
def getEdgeLevel (m : LevelState) (i : Nat) : ℚ :=
  match m.levels with
  | some l => clamp (l i) 1 4096
  | none => clamp m.tessellationRate 1 4096

/-- C2: `getEdgeLevel` always lands in [1,4096], returns the level buffer
value (resp. the constant rate) unchanged when it is already in range, and
on the spec's concrete inputs: rate -1 gives 1, rate 5000 gives 4096, rate
7.5 gives 7.5.  Being a total function, it rejects no input. -/
theorem C2_edge_level_clamped (m : LevelState) (i : Nat) :
    (1 ≤ getEdgeLevel m i ∧ getEdgeLevel m i ≤ 4096) ∧
    (∀ l : Nat → ℚ, m.levels = some l → 1 ≤ l i → l i ≤ 4096 →
      getEdgeLevel m i = l i) ∧
    (m.levels = none → 1 ≤ m.tessellationRate → m.tessellationRate ≤ 4096 →
      getEdgeLevel m i = m.tessellationRate) ∧
    getEdgeLevel ⟨none, -1⟩ i = 1 ∧
    getEdgeLevel ⟨none, 5000⟩ i = 4096 ∧
    getEdgeLevel ⟨none, 7.5⟩ i = 7.5 := by
  refine ⟨⟨?_, ?_⟩, ?_, ?_, ?_, ?_, ?_⟩
  · rcases hm : m.levels with _ | l <;>
      simp [getEdgeLevel, hm, clamp, le_max_iff]
  · rcases hm : m.levels with _ | l <;>
      simp [getEdgeLevel, hm, clamp, max_le_iff, min_le_iff]
  · intro l hm h1 h2
    simp [getEdgeLevel, hm, clamp, min_eq_left h2, max_eq_right h1]
  · intro hm h1 h2
    simp [getEdgeLevel, hm, clamp, min_eq_left h2, max_eq_right h1]
  · norm_num [getEdgeLevel, clamp]
  · norm_num [getEdgeLevel, clamp]
  · norm_num [getEdgeLevel, clamp]

theorem C2_edge_level_clamped_witness :
    (LevelState.mk (some fun _ => 2) 0).levels = some (fun _ => 2) ∧
    (1 : ℚ) ≤ 2 ∧ (2 : ℚ) ≤ 4096 ∧
    getEdgeLevel (LevelState.mk (some fun _ => 2) 0) 0 = 2 :=
  ⟨rfl, by norm_num, by norm_num,
    (C2_edge_level_clamped (LevelState.mk (some fun _ => 2) 0) 0).2.1
      (fun _ => 2) rfl (by norm_num) (by norm_num)⟩

/-! ### Interpolation slots (C3, C10) -/

/-- `SubdivMesh::numInterpolationSlots4` (scene_subdiv_mesh.h, line 238):
`(stride+15)/16`. -/
def numInterpolationSlots4 (stride : Nat) : Nat := (stride + 15) / 16

/-- `SubdivMesh::numInterpolationSlots8` (scene_subdiv_mesh.h, line 239):
`(stride+31)/32`. -/
def numInterpolationSlots8 (stride : Nat) : Nat := (stride + 31) / 32

/-- The slot count selected by the `__AVX__` compile-time dispatch in
`SubdivMesh::interpolationSlot` (scene_subdiv_mesh.h, lines 241-245). -/
def numInterpolationSlots (avx : Bool) (stride : Nat) : Nat :=
  if avx then numInterpolationSlots8 stride else numInterpolationSlots4 stride

/-- `SubdivMesh::interpolationSlot` (scene_subdiv_mesh.h, lines 240-248):
`slots*prim+slot` (the source `assert(slot < slots)` becomes a hypothesis
of the theorems below). -/
def interpolationSlot (avx : Bool) (prim slot stride : Nat) : Nat :=
  numInterpolationSlots avx stride * prim + slot

/-- Ceiling division over ℚ agrees with the rounded-up Nat division. -/
lemma ceil_div_eq (a b : Nat) (hb : 0 < b) :
    ⌈(a : ℚ) / (b : ℚ)⌉₊ = (a + b - 1) / b := by
  have hbQ : (0 : ℚ) < (b : ℚ) := by exact_mod_cast hb
  rcases Nat.eq_zero_or_pos a with rfl | ha
  · simp [Nat.div_eq_of_lt (by omega : b - 1 < b)]
  · have hmod : b * ((a - 1) / b) + (a - 1) % b = a - 1 := Nat.div_add_mod _ _
    have hmlt : (a - 1) % b < b := Nat.mod_lt _ hb
    have hfact : (a - 1) / b * b ≤ a - 1 := Nat.div_mul_le_self _ _
    have hn1 : (a + b - 1) / b = (a - 1) / b + 1 := by
      have h : a + b - 1 = (a - 1) + b := by omega
      rw [h, Nat.add_div_right _ hb]
    set q := (a - 1) / b with hq
    set r := (a - 1) % b with hr
    have hne : (a + b - 1) / b ≠ 0 := by rw [hn1]; exact Nat.succ_ne_zero _
    rw [Nat.ceil_eq_iff hne]
    constructor
    · rw [lt_div_iff₀ hbQ]
      have hgoal : ((a + b - 1) / b - 1) * b < a := by
        rw [hn1, Nat.add_sub_cancel]
        omega
      exact_mod_cast hgoal
    · rw [div_le_iff₀ hbQ]
      have hexp : (q + 1) * b = b * q + b := by ring
      have hgoal : a ≤ ((a + b - 1) / b) * b := by
        rw [hn1, hexp]
        omega
      exact_mod_cast hgoal

/-- C3: the slot count is `ceil(stride / (4*width))` for native width 4
(non-AVX) and 8 (AVX), and slot `s` of primitive `p` maps to the linear
cache index `slots_per_primitive * p + s`. -/
theorem C3_interpolation_slot_count (stride : Nat) :
    numInterpolationSlots4 stride = ⌈(stride : ℚ) / (4 * 4 : ℚ)⌉₊ ∧
    numInterpolationSlots8 stride = ⌈(stride : ℚ) / (4 * 8 : ℚ)⌉₊ ∧
    (∀ avx p s, s < numInterpolationSlots avx stride →
      interpolationSlot avx p s stride = numInterpolationSlots avx stride * p + s) := by
  refine ⟨?_, ?_, ?_⟩
  · have h : (4 * 4 : ℚ) = ((16 : Nat) : ℚ) := by norm_num
    rw [h, ceil_div_eq stride 16 (by norm_num)]
    rfl
  · have h : (4 * 8 : ℚ) = ((32 : Nat) : ℚ) := by norm_num
    rw [h, ceil_div_eq stride 32 (by norm_num)]
    rfl
  · intro avx p s _
    rfl

theorem C3_interpolation_slot_count_witness :
    (2 : Nat) < numInterpolationSlots false 37 ∧
    interpolationSlot false 5 2 37 = numInterpolationSlots false 37 * 5 + 2 :=
  ⟨by decide, (C3_interpolation_slot_count 37).2.2 false 5 2 (by decide)⟩

/-- C10: for a fixed stride and engine width, the linear cache-index map is
injective on (primitive, slot) pairs whose slot index satisfies the
source's `assert(slot < slots)`. -/
theorem C10_interpolation_slot_injective (avx : Bool) (stride p p' s s' : Nat)
    (hs : s < numInterpolationSlots avx stride)
    (hs' : s' < numInterpolationSlots avx stride)
    (heq : interpolationSlot avx p s stride = interpolationSlot avx p' s' stride) :
    p = p' ∧ s = s' := by
  have hpos : 0 < numInterpolationSlots avx stride := by omega
  unfold interpolationSlot at heq
  set slots := numInterpolationSlots avx stride with hslots
  have e1 : (slots * p + s) / slots = p := by
    rw [Nat.mul_add_div hpos, Nat.div_eq_of_lt hs, Nat.add_zero]
  have e2 : (slots * p' + s') / slots = p' := by
    rw [Nat.mul_add_div hpos, Nat.div_eq_of_lt hs', Nat.add_zero]
  have hp : p = p' := by rw [← e1, ← e2, heq]
  subst hp
  exact ⟨rfl, by omega⟩

theorem C10_interpolation_slot_injective_witness :
    (1 : Nat) < numInterpolationSlots true 40 ∧
    (1 : Nat) < numInterpolationSlots true 40 ∧
    interpolationSlot true 3 1 40 = interpolationSlot true 3 1 40 ∧
    ((3 : Nat) = 3 ∧ (1 : Nat) = 1) :=
  ⟨by decide, by decide, rfl,
    C10_interpolation_slot_injective true 40 3 3 1 1 (by decide) (by decide) rfl⟩

/-! ### Half-edge topology builder (C1, C5, C8)

The builder's body (`SubdivMesh::calculateHalfEdges`,
`SubdivMesh::initializeHalfEdgeStructures`) and the half-edge record
(subdiv/half_edge.h) are declared but not implemented under src/, so they
are modelled from the spec (§3 DATA MODEL, §4.3 TopologyBuilder). -/

/-- Modelled from the spec (§3): a half-edge — origin vertex id, owning
face id, `next`/`prev` indices in the face cycle, and the opposite (twin)
index, where `none` is the "boundary, no twin" sentinel.  The edge-level
and crease-weight attributes are omitted; no claim refers to them.
(subdiv/half_edge.h is not under src/.) -/
structure HalfEdge where
  vtx_index : Nat
  face : Nat
  next : Nat
  prev : Nat
  opposite : Option Nat
deriving DecidableEq, Inhabited

/-- Modelled from the spec (§4.3 steps 1-2): the half-edges of one face of
`c` vertices whose first half-edge has global index `start`; `next`/`prev`
wrap around the face cycle. -/
def buildFaceHalfEdges (indices : List Nat) (f start c : Nat) : List HalfEdge :=
  (List.range c).map fun j =>
    { vtx_index := indices.getD (start + j) 0
      face := f
      next := start + (j + 1) % c
      prev := start + (j + c - 1) % c
      opposite := none }

/-- Modelled from the spec (§4.3 steps 1-2): one half-edge per
(face, local-vertex) pair, faces laid out consecutively. -/
def buildHalfEdgesRec (indices : List Nat) : List Nat → Nat → Nat → List HalfEdge
  | [], _, _ => []
  | c :: cs, f, start =>
      buildFaceHalfEdges indices f start c ++ buildHalfEdgesRec indices cs (f + 1) (start + c)

/-- The unlinked half-edge array of the whole mesh. -/
def buildHalfEdges0 (faceVertices vertexIndices : List Nat) : List HalfEdge :=
  buildHalfEdgesRec vertexIndices faceVertices 0 0

/-- Modelled from the spec (§4.3 step 3): the unordered edge key of
half-edge `i`, from its origin and the origin of its `next`. -/
def halfEdgeKeyAt (edges : List HalfEdge) (i : Nat) : Nat :=
  (Edge.mk (edges.getD i default).vtx_index
    (edges.getD (edges.getD i default).next default).vtx_index).key

/-- The half-edge indices carrying key `k` (the run of key `k` in the
sorted key list of §4.3 step 4). -/
def keyMatches (edges : List HalfEdge) (k : Nat) : List Nat :=
  (List.range edges.length).filter fun j => halfEdgeKeyAt edges j == k

/-- The number of half-edges carrying key `k`. -/
def keyCount (edges : List HalfEdge) (k : Nat) : Nat :=
  (keyMatches edges k).length

/-- Modelled from the spec (§4.3 step 4): a run of exactly two equal keys
pairs the two half-edges as mutual opposites; any other run length leaves
the boundary sentinel untouched. -/
def linkOpposites (edges : List HalfEdge) : List HalfEdge :=
  (List.range edges.length).map fun i =>
    let e := edges.getD i default
    match (keyMatches edges (halfEdgeKeyAt edges i)).filter (fun j => j != i) with
    | [j] => { e with opposite := some j }
    | _ => e

/-- `SubdivMesh::calculateHalfEdges` (declared scene_subdiv_mesh.h line
138; body not under src/): modelled from the spec as per-face allocation
followed by opposite pairing. -/
def calculateHalfEdges (faceVertices vertexIndices : List Nat) : List HalfEdge :=
  linkOpposites (buildHalfEdges0 faceVertices vertexIndices)

/-- The vertex-id cycle of face `f` (its slice of `vertexIndices`). -/
def faceCycle (faceVertices vertexIndices : List Nat) (f : Nat) : List Nat :=
  (List.range (faceVertices.getD f 0)).map fun j =>
    vertexIndices.getD ((faceVertices.take f).sum + j) 0

/-- Modelled from the spec (§4.3 step 6): a degenerate face — fewer than
3 distinct vertex indices, or a repeated vertex in its cycle. -/
def faceDegenerate (faceVertices vertexIndices : List Nat) (f : Nat) : Bool :=
  let cyc := faceCycle faceVertices vertexIndices f
  cyc.dedup.length < 3 || cyc.dedup.length < cyc.length

/-- Modelled from the spec (§4.3 step 4): face `f` owns a half-edge whose
edge key is shared by more than two half-edges. -/
def faceNonManifold (edges : List HalfEdge) (f : Nat) : Bool :=
  (List.range edges.length).any fun i =>
    (edges.getD i default).face == f && 2 < keyCount edges (halfEdgeKeyAt edges i)

/-- Modelled from the spec (§4.3 steps 4 and 6): the per-face invalid
flag — the face is in the hole set, degenerate, or touches a non-manifold
edge. -/
def invalidFlag (faceVertices vertexIndices holes : List Nat)
    (edges : List HalfEdge) (f : Nat) : Bool :=
  holes.contains f || faceDegenerate faceVertices vertexIndices f ||
    faceNonManifold edges f

/-- `RTCBoundaryMode`: the two modes the spec names — "no boundary faces
allowed" vs "boundaries permitted". -/
inductive RTCBoundaryMode where
  | RTC_BOUNDARY_NONE
  | RTC_BOUNDARY_SMOOTH
deriving DecidableEq

/-- The mesh state produced by `initializeHalfEdgeStructures`. -/
structure MeshState where
  numFaces : Nat
  numTimeSteps : Nat
  boundary : RTCBoundaryMode
  faceVertices : List Nat
  halfEdges : List HalfEdge
  invalid_face : List Bool

/-- `SubdivMesh::invalidFace` (scene_subdiv_mesh.h, lines 229-230):
`invalid_face[i*numTimeSteps+j]`. -/
def invalidFace (m : MeshState) (i j : Nat) : Bool :=
  m.invalid_face.getD (i * m.numTimeSteps + j) false

/-- Modelled from the spec: `HalfEdge::faceHasBorder` (subdiv/half_edge.h,
not under src/) — the face cycle contains a boundary half-edge, i.e. one
whose opposite is the sentinel (§3: "an edge is a boundary edge iff its
opposite is the sentinel"). -/
def faceHasBorder (m : MeshState) (f : Nat) : Bool :=
  (List.range (m.faceVertices.getD f 0)).any fun j =>
    ((m.halfEdges.getD ((m.faceVertices.take f).sum + j) default).opposite).isNone

/-- `SubdivMesh::valid(i)` (scene_subdiv_mesh.h, lines 115-121). -/
def valid (m : MeshState) (i : Nat) : Bool :=
  if m.boundary = RTCBoundaryMode.RTC_BOUNDARY_NONE then
    if faceHasBorder m i then false else !invalidFace m i 0
  else !invalidFace m i 0

/-- `SubdivMesh::valid(i,j)` (scene_subdiv_mesh.h, lines 124-130). -/
def validAt (m : MeshState) (i j : Nat) : Bool :=
  if m.boundary = RTCBoundaryMode.RTC_BOUNDARY_NONE then
    if faceHasBorder m i then false else !invalidFace m i j
  else !invalidFace m i j

/-- `SubdivMesh::initializeHalfEdgeStructures` (declared
scene_subdiv_mesh.h line 133; body not under src/): modelled from the
spec — build and pair the half-edges and compute the per-(face,timestep)
invalid flags. -/
def buildHalfEdgeStructures (faceVertices vertexIndices holes : List Nat)
    (numTimeSteps : Nat) (boundary : RTCBoundaryMode) : MeshState :=
  let edges := calculateHalfEdges faceVertices vertexIndices
  { numFaces := faceVertices.length
    numTimeSteps := numTimeSteps
    boundary := boundary
    faceVertices := faceVertices
    halfEdges := edges
    invalid_face := (List.range (faceVertices.length * numTimeSteps)).map fun idx =>
      invalidFlag faceVertices vertexIndices holes edges (idx / numTimeSteps) }

/-! ### List access helpers -/

lemma getD_map_range {α : Type} (g : Nat → α) (n i : Nat) (d : α) (h : i < n) :
    ((List.range n).map g).getD i d = g i := by
  rw [List.getD_eq_getElem?_getD, List.getElem?_map, List.getElem?_range h]
  rfl

lemma getD_append_left {α : Type} (l1 l2 : List α) (i : Nat) (d : α)
    (h : i < l1.length) :
    (l1 ++ l2).getD i d = l1.getD i d := by
  rw [List.getD_eq_getElem?_getD, List.getD_eq_getElem?_getD,
    List.getElem?_append, if_pos h]

lemma getD_append_right {α : Type} (l1 l2 : List α) (i : Nat) (d : α)
    (h : l1.length ≤ i) :
    (l1 ++ l2).getD i d = l2.getD (i - l1.length) d := by
  rw [List.getD_eq_getElem?_getD, List.getD_eq_getElem?_getD,
    List.getElem?_append_right h]

/-! ### Structure of the unlinked half-edge array -/

lemma length_buildFaceHalfEdges (indices : List Nat) (f start c : Nat) :
    (buildFaceHalfEdges indices f start c).length = c := by
  simp [buildFaceHalfEdges]

lemma length_buildHalfEdgesRec (indices : List Nat) :
    ∀ (counts : List Nat) (f0 s0 : Nat),
      (buildHalfEdgesRec indices counts f0 s0).length = counts.sum := by
  intro counts
  induction counts with
  | nil => intro f0 s0; rfl
  | cons c cs ih =>
    intro f0 s0
    simp [buildHalfEdgesRec, length_buildFaceHalfEdges, ih]

lemma length_buildHalfEdges0 (faceVertices vertexIndices : List Nat) :
    (buildHalfEdges0 faceVertices vertexIndices).length = faceVertices.sum :=
  length_buildHalfEdgesRec vertexIndices faceVertices 0 0

lemma take_sum_add_lt (counts : List Nat) :
    ∀ (f j : Nat), j < counts.getD f 0 → (counts.take f).sum + j < counts.sum := by
  induction counts with
  | nil => intro f j hj; simp [List.getD] at hj
  | cons c cs ih =>
    intro f j hj
    cases f with
    | zero =>
      simp only [List.take_zero, List.sum_nil, Nat.zero_add, List.sum_cons]
      simp only [List.getD_cons_zero] at hj
      omega
    | succ f' =>
      simp only [List.getD_cons_succ] at hj
      have := ih f' j hj
      simp only [List.take_succ_cons, List.sum_cons]
      omega

lemma buildHalfEdgesRec_getD (indices : List Nat) :
    ∀ (counts : List Nat) (f0 s0 f j : Nat), j < counts.getD f 0 →
    (buildHalfEdgesRec indices counts f0 s0).getD ((counts.take f).sum + j) default =
      { vtx_index := indices.getD (s0 + (counts.take f).sum + j) 0
        face := f0 + f
        next := s0 + (counts.take f).sum + (j + 1) % counts.getD f 0
        prev := s0 + (counts.take f).sum + (j + counts.getD f 0 - 1) % counts.getD f 0
        opposite := none } := by
  intro counts
  induction counts with
  | nil => intro f0 s0 f j hj; simp [List.getD] at hj
  | cons c cs ih =>
    intro f0 s0 f j hj
    cases f with
    | zero =>
      simp only [List.getD_cons_zero] at hj
      simp only [List.take_zero, List.sum_nil, Nat.zero_add, List.getD_cons_zero]
      rw [buildHalfEdgesRec, getD_append_left _ _ _ _
        (by rw [length_buildFaceHalfEdges]; exact hj)]
      unfold buildFaceHalfEdges
      rw [getD_map_range _ _ _ _ hj]
      simp only [Nat.add_zero]
    | succ f' =>
      simp only [List.getD_cons_succ] at hj
      simp only [List.take_succ_cons, List.sum_cons, List.getD_cons_succ]
      have hidx : c + (cs.take f').sum + j = c + ((cs.take f').sum + j) := by omega
      rw [buildHalfEdgesRec, hidx, getD_append_right _ _ _ _
        (by rw [length_buildFaceHalfEdges]; omega)]
      rw [length_buildFaceHalfEdges]
      have hsub : c + ((cs.take f').sum + j) - c = (cs.take f').sum + j := by omega
      rw [hsub, ih (f0 + 1) (s0 + c) f' j hj]
      simp only [Nat.add_assoc, Nat.add_comm 1 f']

/-! ### Linking preserves everything except `opposite` -/

lemma length_linkOpposites (edges : List HalfEdge) :
    (linkOpposites edges).length = edges.length := by
  simp [linkOpposites]

lemma linkOpposites_getD (edges : List HalfEdge) (i : Nat) (h : i < edges.length) :
    (linkOpposites edges).getD i default =
      match (keyMatches edges (halfEdgeKeyAt edges i)).filter (fun j => j != i) with
      | [j] => { edges.getD i default with opposite := some j }
      | _ => edges.getD i default := by
  unfold linkOpposites
  rw [getD_map_range _ _ _ _ h]

lemma linkOpposites_getD_fields (edges : List HalfEdge) (i : Nat) :
    ((linkOpposites edges).getD i default).vtx_index = (edges.getD i default).vtx_index ∧
    ((linkOpposites edges).getD i default).face = (edges.getD i default).face ∧
    ((linkOpposites edges).getD i default).next = (edges.getD i default).next := by
  rcases Nat.lt_or_ge i edges.length with h | h
  · rw [linkOpposites_getD edges i h]
    rcases hm : (keyMatches edges (halfEdgeKeyAt edges i)).filter (fun j => j != i) with
      _ | ⟨a, _ | ⟨b, t⟩⟩ <;> simp
  · rw [List.getD_eq_default _ _ (by rw [length_linkOpposites]; exact h),
      List.getD_eq_default _ _ h]
    exact ⟨rfl, rfl, rfl⟩

lemma halfEdgeKeyAt_linkOpposites (edges : List HalfEdge) (i : Nat) :
    halfEdgeKeyAt (linkOpposites edges) i = halfEdgeKeyAt edges i := by
  unfold halfEdgeKeyAt
  rw [(linkOpposites_getD_fields edges i).1, (linkOpposites_getD_fields edges i).2.2,
    (linkOpposites_getD_fields edges ((edges.getD i default).next)).1]

lemma keyMatches_linkOpposites (edges : List HalfEdge) (k : Nat) :
    keyMatches (linkOpposites edges) k = keyMatches edges k := by
  unfold keyMatches
  rw [length_linkOpposites]
  apply List.filter_congr
  intro j _
  rw [halfEdgeKeyAt_linkOpposites]

lemma keyCount_linkOpposites (edges : List HalfEdge) (k : Nat) :
    keyCount (linkOpposites edges) k = keyCount edges k := by
  unfold keyCount
  rw [keyMatches_linkOpposites]

/-- A half-edge whose key occurs exactly once keeps the boundary
sentinel. -/
lemma linkOpposites_opposite_of_count_one (edges : List HalfEdge) (i : Nat)
    (h : i < edges.length) (hcount : keyCount edges (halfEdgeKeyAt edges i) = 1) :
    ((linkOpposites edges).getD i default).opposite =
      (edges.getD i default).opposite := by
  have hmem : i ∈ keyMatches edges (halfEdgeKeyAt edges i) := by
    unfold keyMatches
    rw [List.mem_filter]
    exact ⟨List.mem_range.mpr h, by simp⟩
  obtain ⟨a, ha⟩ := List.length_eq_one.mp hcount
  rw [ha] at hmem
  have hai : a = i := (List.mem_singleton.mp hmem).symm
  rw [hai] at ha
  have hnil : (keyMatches edges (halfEdgeKeyAt edges i)).filter (fun j => j != i) = [] := by
    rw [ha]
    simp
  rw [linkOpposites_getD edges i h, hnil]

/-! ### C1: count and cycle invariants -/

/-- The `next` link of half-edge `i`. -/
def nextAt (edges : List HalfEdge) (i : Nat) : Nat :=
  (edges.getD i default).next

lemma nextAt_buildHalfEdges0 (faceVertices vertexIndices : List Nat) (f j : Nat)
    (hj : j < faceVertices.getD f 0) :
    nextAt (buildHalfEdges0 faceVertices vertexIndices) ((faceVertices.take f).sum + j) =
      (faceVertices.take f).sum + (j + 1) % faceVertices.getD f 0 := by
  unfold nextAt buildHalfEdges0
  rw [buildHalfEdgesRec_getD vertexIndices faceVertices 0 0 f j hj]
  simp

lemma face_buildHalfEdges0 (faceVertices vertexIndices : List Nat) (f j : Nat)
    (hj : j < faceVertices.getD f 0) :
    ((buildHalfEdges0 faceVertices vertexIndices).getD
      ((faceVertices.take f).sum + j) default).face = f := by
  unfold buildHalfEdges0
  rw [buildHalfEdgesRec_getD vertexIndices faceVertices 0 0 f j hj]
  simp

lemma nextAt_calculateHalfEdges (faceVertices vertexIndices : List Nat) (f j : Nat)
    (hj : j < faceVertices.getD f 0) :
    nextAt (calculateHalfEdges faceVertices vertexIndices) ((faceVertices.take f).sum + j) =
      (faceVertices.take f).sum + (j + 1) % faceVertices.getD f 0 := by
  unfold calculateHalfEdges nextAt
  rw [(linkOpposites_getD_fields _ _).2.2]
  exact nextAt_buildHalfEdges0 faceVertices vertexIndices f j hj

lemma iterate_nextAt (faceVertices vertexIndices : List Nat) (f j : Nat)
    (hj : j < faceVertices.getD f 0) :
    ∀ m : Nat,
      (nextAt (calculateHalfEdges faceVertices vertexIndices))^[m]
        ((faceVertices.take f).sum + j) =
      (faceVertices.take f).sum + (j + m) % faceVertices.getD f 0 := by
  intro m
  induction m with
  | zero =>
    simp only [Function.iterate_zero, id_eq, Nat.add_zero]
    rw [Nat.mod_eq_of_lt hj]
  | succ m ih =>
    rw [Function.iterate_succ_apply', ih]
    have hpos : 0 < faceVertices.getD f 0 := by omega
    have hlt : (j + m) % faceVertices.getD f 0 < faceVertices.getD f 0 :=
      Nat.mod_lt _ hpos
    rw [nextAt_calculateHalfEdges faceVertices vertexIndices f _ hlt,
      Nat.mod_add_mod, Nat.add_assoc]

/-- C1: the built half-edge array has exactly (sum of per-face vertex
counts) entries; half-edge `j` of face `f` is owned by face `f`; and
following `next` exactly `k` times from any half-edge of a face of `k`
vertices returns to the starting half-edge. -/
theorem C1_halfedge_count_and_cycle (faceVertices vertexIndices : List Nat)
    (_hvalid : vertexIndices.length = faceVertices.sum) (f j : Nat)
    (hj : j < faceVertices.getD f 0) :
    (calculateHalfEdges faceVertices vertexIndices).length = faceVertices.sum ∧
    ((calculateHalfEdges faceVertices vertexIndices).getD
      ((faceVertices.take f).sum + j) default).face = f ∧
    (nextAt (calculateHalfEdges faceVertices vertexIndices))^[faceVertices.getD f 0]
      ((faceVertices.take f).sum + j) = (faceVertices.take f).sum + j := by
  refine ⟨?_, ?_, ?_⟩
  · unfold calculateHalfEdges
    rw [length_linkOpposites, length_buildHalfEdges0]
  · unfold calculateHalfEdges
    rw [(linkOpposites_getD_fields _ _).2.1]
    exact face_buildHalfEdges0 faceVertices vertexIndices f j hj
  · rw [iterate_nextAt faceVertices vertexIndices f j hj, Nat.add_mod_right,
      Nat.mod_eq_of_lt hj]

theorem C1_halfedge_count_and_cycle_witness :
    [0, 1, 2, 1, 3, 2].length = [3, 3].sum ∧ (2 : Nat) < [3, 3].getD 1 0 ∧
    ((calculateHalfEdges [3, 3] [0, 1, 2, 1, 3, 2]).length = [3, 3].sum ∧
     ((calculateHalfEdges [3, 3] [0, 1, 2, 1, 3, 2]).getD
       (([3, 3].take 1).sum + 2) default).face = 1 ∧
     (nextAt (calculateHalfEdges [3, 3] [0, 1, 2, 1, 3, 2]))^[[3, 3].getD 1 0]
       (([3, 3].take 1).sum + 2) = ([3, 3].take 1).sum + 2) :=
  ⟨by decide, by decide,
    C1_halfedge_count_and_cycle [3, 3] [0, 1, 2, 1, 3, 2] (by decide) 1 2 (by decide)⟩

/-! ### C5: boundary faces and the boundary mode -/

lemma valid_of_border (m : MeshState) (f : Nat)
    (hb : m.boundary = RTCBoundaryMode.RTC_BOUNDARY_NONE)
    (hbord : faceHasBorder m f = true) : valid m f = false := by
  simp [valid, hb, hbord]

lemma validAt_of_border (m : MeshState) (f t : Nat)
    (hb : m.boundary = RTCBoundaryMode.RTC_BOUNDARY_NONE)
    (hbord : faceHasBorder m f = true) : validAt m f t = false := by
  simp [validAt, hb, hbord]

lemma valid_of_not_none (m : MeshState) (f : Nat)
    (hb : m.boundary ≠ RTCBoundaryMode.RTC_BOUNDARY_NONE) :
    valid m f = !invalidFace m f 0 := by
  simp [valid, hb]

/-- C5: a face whose cycle contains a half-edge whose edge key occurs
exactly once (no twin) is invalid — at every timestep — under boundary
mode `RTC_BOUNDARY_NONE`; under any other mode it is valid exactly when
its invalid-face flag is not set. -/
theorem C5_boundary_face_validity (faceVertices vertexIndices holes : List Nat)
    (nts : Nat) (bmode : RTCBoundaryMode) (f j t : Nat)
    (hj : j < faceVertices.getD f 0)
    (hkey : keyCount (calculateHalfEdges faceVertices vertexIndices)
      (halfEdgeKeyAt (calculateHalfEdges faceVertices vertexIndices)
        ((faceVertices.take f).sum + j)) = 1) :
    (bmode = RTCBoundaryMode.RTC_BOUNDARY_NONE →
      valid (buildHalfEdgeStructures faceVertices vertexIndices holes nts bmode) f = false ∧
      validAt (buildHalfEdgeStructures faceVertices vertexIndices holes nts bmode) f t = false) ∧
    (bmode ≠ RTCBoundaryMode.RTC_BOUNDARY_NONE →
      valid (buildHalfEdgeStructures faceVertices vertexIndices holes nts bmode) f =
        !invalidFace (buildHalfEdgeStructures faceVertices vertexIndices holes nts bmode) f 0) := by
  have hkey0 : keyCount (buildHalfEdges0 faceVertices vertexIndices)
      (halfEdgeKeyAt (buildHalfEdges0 faceVertices vertexIndices)
        ((faceVertices.take f).sum + j)) = 1 := by
    rw [calculateHalfEdges, keyCount_linkOpposites, halfEdgeKeyAt_linkOpposites] at hkey
    exact hkey
  have hi : (faceVertices.take f).sum + j <
      (buildHalfEdges0 faceVertices vertexIndices).length := by
    rw [length_buildHalfEdges0]
    exact take_sum_add_lt faceVertices f j hj
  have hop : ((calculateHalfEdges faceVertices vertexIndices).getD
      ((faceVertices.take f).sum + j) default).opposite = none := by
    rw [calculateHalfEdges,
      linkOpposites_opposite_of_count_one _ _ hi hkey0]
    unfold buildHalfEdges0
    rw [buildHalfEdgesRec_getD vertexIndices faceVertices 0 0 f j hj]
  have hborder : faceHasBorder
      (buildHalfEdgeStructures faceVertices vertexIndices holes nts bmode) f = true := by
    unfold faceHasBorder
    rw [List.any_eq_true]
    refine ⟨j, List.mem_range.mpr hj, ?_⟩
    show ((buildHalfEdgeStructures faceVertices vertexIndices holes nts bmode).halfEdges.getD
      ((faceVertices.take f).sum + j) default).opposite.isNone = true
    have hhe : (buildHalfEdgeStructures faceVertices vertexIndices holes nts bmode).halfEdges =
        calculateHalfEdges faceVertices vertexIndices := rfl
    rw [hhe, hop]
    rfl
  refine ⟨fun hb => ?_, fun hb => ?_⟩
  · exact ⟨valid_of_border _ f hb hborder, validAt_of_border _ f t hb hborder⟩
  · exact valid_of_not_none _ f hb

theorem C5_boundary_face_validity_witness :
    (0 : Nat) < [3, 3].getD 0 0 ∧
    keyCount (calculateHalfEdges [3, 3] [0, 1, 2, 1, 3, 2])
      (halfEdgeKeyAt (calculateHalfEdges [3, 3] [0, 1, 2, 1, 3, 2])
        (([3, 3].take 0).sum + 0)) = 1 ∧
    (valid (buildHalfEdgeStructures [3, 3] [0, 1, 2, 1, 3, 2] [] 1
      RTCBoundaryMode.RTC_BOUNDARY_NONE) 0 = false ∧
     validAt (buildHalfEdgeStructures [3, 3] [0, 1, 2, 1, 3, 2] [] 1
      RTCBoundaryMode.RTC_BOUNDARY_NONE) 0 0 = false) :=
  ⟨by decide, by decide,
    (C5_boundary_face_validity [3, 3] [0, 1, 2, 1, 3, 2] [] 1
      RTCBoundaryMode.RTC_BOUNDARY_NONE 0 0 0 (by decide) (by decide)).1 rfl⟩

/-! ### C8: non-manifold edges -/

/-- C8: a face owning a half-edge whose edge key is shared by more than
two half-edges is flagged invalid at every timestep; construction is a
total function that still builds the full half-edge array (one entry per
face vertex) and the full flag table. -/
theorem C8_nonmanifold_marks_invalid (faceVertices vertexIndices holes : List Nat)
    (nts : Nat) (bmode : RTCBoundaryMode) (f j t : Nat)
    (hj : j < faceVertices.getD f 0) (ht : t < nts)
    (hnm : 2 < keyCount (calculateHalfEdges faceVertices vertexIndices)
      (halfEdgeKeyAt (calculateHalfEdges faceVertices vertexIndices)
        ((faceVertices.take f).sum + j))) :
    invalidFace (buildHalfEdgeStructures faceVertices vertexIndices holes nts bmode) f t
      = true ∧
    (buildHalfEdgeStructures faceVertices vertexIndices holes nts bmode).halfEdges.length
      = faceVertices.sum ∧
    (buildHalfEdgeStructures faceVertices vertexIndices holes nts bmode).invalid_face.length
      = faceVertices.length * nts := by
  have hflen : f < faceVertices.length := by
    by_contra h
    push_neg at h
    rw [List.getD_eq_default _ _ h] at hj
    omega
  have hi : (faceVertices.take f).sum + j <
      (calculateHalfEdges faceVertices vertexIndices).length := by
    rw [calculateHalfEdges, length_linkOpposites, length_buildHalfEdges0]
    exact take_sum_add_lt faceVertices f j hj
  have hface : ((calculateHalfEdges faceVertices vertexIndices).getD
      ((faceVertices.take f).sum + j) default).face = f := by
    rw [calculateHalfEdges, (linkOpposites_getD_fields _ _).2.1]
    exact face_buildHalfEdges0 faceVertices vertexIndices f j hj
  have hnmf : faceNonManifold (calculateHalfEdges faceVertices vertexIndices) f = true := by
    unfold faceNonManifold
    rw [List.any_eq_true]
    refine ⟨(faceVertices.take f).sum + j, List.mem_range.mpr hi, ?_⟩
    simp only [Bool.and_eq_true, beq_iff_eq, decide_eq_true_eq]
    exact ⟨hface, hnm⟩
  have hfl : invalidFlag faceVertices vertexIndices holes
      (calculateHalfEdges faceVertices vertexIndices) f = true := by
    unfold invalidFlag
    rw [hnmf]
    simp
  have hidx : f * nts + t < faceVertices.length * nts := by
    have h1 : (f + 1) * nts ≤ faceVertices.length * nts :=
      Nat.mul_le_mul_right _ (by omega)
    have h2 : (f + 1) * nts = f * nts + nts := by ring
    omega
  have hdiv : (f * nts + t) / nts = f := by
    rw [Nat.mul_comm f nts, Nat.mul_add_div (by omega), Nat.div_eq_of_lt ht,
      Nat.add_zero]
  refine ⟨?_, ?_, ?_⟩
  · show ((List.range (faceVertices.length * nts)).map fun idx =>
      invalidFlag faceVertices vertexIndices holes
        (calculateHalfEdges faceVertices vertexIndices) (idx / nts)).getD
        (f * nts + t) false = true
    rw [getD_map_range _ _ _ _ hidx, hdiv]
    exact hfl
  · show (calculateHalfEdges faceVertices vertexIndices).length = faceVertices.sum
    rw [calculateHalfEdges, length_linkOpposites, length_buildHalfEdges0]
  · show ((List.range (faceVertices.length * nts)).map fun idx =>
      invalidFlag faceVertices vertexIndices holes
        (calculateHalfEdges faceVertices vertexIndices) (idx / nts)).length
      = faceVertices.length * nts
    simp

theorem C8_nonmanifold_marks_invalid_witness :
    (0 : Nat) < [3, 3, 3].getD 0 0 ∧ (0 : Nat) < 1 ∧
    2 < keyCount (calculateHalfEdges [3, 3, 3] [0, 1, 2, 0, 1, 3, 0, 1, 4])
      (halfEdgeKeyAt (calculateHalfEdges [3, 3, 3] [0, 1, 2, 0, 1, 3, 0, 1, 4])
        (([3, 3, 3].take 0).sum + 0)) ∧
    (invalidFace (buildHalfEdgeStructures [3, 3, 3] [0, 1, 2, 0, 1, 3, 0, 1, 4] [] 1
      RTCBoundaryMode.RTC_BOUNDARY_SMOOTH) 0 0 = true ∧
     (buildHalfEdgeStructures [3, 3, 3] [0, 1, 2, 0, 1, 3, 0, 1, 4] [] 1
      RTCBoundaryMode.RTC_BOUNDARY_SMOOTH).halfEdges.length = [3, 3, 3].sum ∧
     (buildHalfEdgeStructures [3, 3, 3] [0, 1, 2, 0, 1, 3, 0, 1, 4] [] 1
      RTCBoundaryMode.RTC_BOUNDARY_SMOOTH).invalid_face.length = [3, 3, 3].length * 1) :=
  ⟨by decide, by decide, by decide,
    C8_nonmanifold_marks_invalid [3, 3, 3] [0, 1, 2, 0, 1, 3, 0, 1, 4] [] 1
      RTCBoundaryMode.RTC_BOUNDARY_SMOOTH 0 0 0 (by decide) (by decide) (by decide)⟩

/-! ### Lazy evaluation cache (C6, C7)

`SharedLazyTessellationCache` and its `CacheEntry` (referenced at
scene_subdiv_mesh.h lines 249-251) live in subdiv/tessellation_cache.h,
which is not under src/; the cache is modelled from the spec (§3
CacheEntry, §4.5 LazyPatchCache). -/

/-- A cache key: (primitive id, timestep, interpolation slot). -/
abbrev CacheKey := Nat × Nat × Nat

/-- Modelled from the spec (§3, §4.5): the mesh-plus-cache state — the
level and topology generation counters, the built topology (half-edge
array and face-start table), and per-key cache entries holding a
generation tag and a reference to evaluated data. -/
structure CacheState (Data : Type) where
  levelGen : Nat
  topoGen : Nat
  halfEdges : List HalfEdge
  faceStartEdge : List Nat
  entries : CacheKey → Option (Nat × Data)

/-- Modelled from the spec (§4.5 `fetch`): if the entry's tag equals the
current generation, return the stored data with the state unchanged
(hit); otherwise invoke the evaluation engine on the current topology,
store the result under the current generation tag, and report one
recomputation.  Returns (data, new state, recomputed?). -/
def fetch {Data : Type} (eval : List HalfEdge → CacheKey → Data)
    (s : CacheState Data) (k : CacheKey) : Data × CacheState Data × Bool :=
  match s.entries k with
  | some (tag, d) =>
    if tag = s.levelGen then (d, s, false)
    else
      let d2 := eval s.halfEdges k
      (d2, { s with entries := fun q => if q = k then some (s.levelGen, d2)
                      else s.entries q }, true)
  | none =>
      let d2 := eval s.halfEdges k
      (d2, { s with entries := fun q => if q = k then some (s.levelGen, d2)
                      else s.entries q }, true)

/-- Modelled from the spec (§4.5 `invalidateLevelsOnly`): advance the
level generation counter without touching topology. -/
def invalidateLevelsOnly {Data : Type} (s : CacheState Data) : CacheState Data :=
  { s with levelGen := s.levelGen + 1 }

/-- Modelled from the spec (§4.5 `invalidateTopology`): advance both the
level and topology generation counters. -/
def invalidateTopology {Data : Type} (s : CacheState Data) : CacheState Data :=
  { s with levelGen := s.levelGen + 1, topoGen := s.topoGen + 1 }

/-- After any fetch, the entry for the fetched key holds the returned data
under the current generation tag. -/
lemma fetch_entry {Data : Type} (eval : List HalfEdge → CacheKey → Data)
    (s : CacheState Data) (k : CacheKey) :
    ((fetch eval s k).2.1).entries k =
      some (((fetch eval s k).2.1).levelGen, (fetch eval s k).1) := by
  unfold fetch
  rcases h : s.entries k with _ | ⟨tag, d⟩
  · simp
  · by_cases htag : tag = s.levelGen
    · subst htag
      simp [h]
    · simp [htag]

/-- A fetch of a key whose entry carries the current generation tag is a
hit: stored data, unchanged state, no recomputation. -/
lemma fetch_of_valid_entry {Data : Type} (eval : List HalfEdge → CacheKey → Data)
    (s : CacheState Data) (k : CacheKey) (d : Data)
    (h : s.entries k = some (s.levelGen, d)) :
    fetch eval s k = (d, s, false) := by
  unfold fetch
  rw [h]
  simp

/-- C6: two consecutive fetches of the same key with no intervening
invalidation return the same data; the second fetch leaves the state
unchanged (no side effect) and performs no recomputation, because after
the first fetch the entry's tag already equals the current generation. -/
theorem C6_fetch_idempotent (Data : Type) (eval : List HalfEdge → CacheKey → Data)
    (s : CacheState Data) (k : CacheKey) :
    (fetch eval (fetch eval s k).2.1 k).1 = (fetch eval s k).1 ∧
    (fetch eval (fetch eval s k).2.1 k).2.1 = (fetch eval s k).2.1 ∧
    (fetch eval (fetch eval s k).2.1 k).2.2 = false ∧
    (((fetch eval s k).2.1).entries k).map Prod.fst =
      some (((fetch eval s k).2.1).levelGen) := by
  have h1 := fetch_entry eval s k
  have h2 := fetch_of_valid_entry eval (fetch eval s k).2.1 k (fetch eval s k).1 h1
  rw [h2]
  exact ⟨rfl, rfl, rfl, by rw [h1]; rfl⟩

/-- C7: `invalidateLevelsOnly` leaves the half-edge array, the face-start
table, the topology generation and the stored entries untouched, and the
next fetch of a previously valid key recomputes exactly once: it reports a
recomputation and the fetch after it is again a pure hit. -/
theorem C7_invalidate_levels_only (Data : Type)
    (eval : List HalfEdge → CacheKey → Data) (s : CacheState Data) (k : CacheKey)
    (tag : Nat) (d : Data) (hentry : s.entries k = some (tag, d))
    (htag : tag = s.levelGen) :
    (invalidateLevelsOnly s).halfEdges = s.halfEdges ∧
    (invalidateLevelsOnly s).faceStartEdge = s.faceStartEdge ∧
    (invalidateLevelsOnly s).topoGen = s.topoGen ∧
    (invalidateLevelsOnly s).entries = s.entries ∧
    (fetch eval (invalidateLevelsOnly s) k).2.2 = true ∧
    (fetch eval (fetch eval (invalidateLevelsOnly s) k).2.1 k).2.2 = false := by
  subst htag
  refine ⟨rfl, rfl, rfl, rfl, ?_, ?_⟩
  · unfold fetch invalidateLevelsOnly
    simp [hentry]
  · have h1 := fetch_entry eval (invalidateLevelsOnly s) k
    rw [fetch_of_valid_entry eval _ k _ h1]

theorem C7_invalidate_levels_only_witness :
    (CacheState.mk 0 0 [] [] (fun _ => some (0, 5)) : CacheState Nat).entries (0, 0, 0)
      = some (0, 5) ∧
    ((invalidateLevelsOnly (CacheState.mk 0 0 [] [] (fun _ => some (0, 5)) :
        CacheState Nat)).halfEdges = [] ∧
     (fetch (fun _ _ => 7) (invalidateLevelsOnly
        (CacheState.mk 0 0 [] [] (fun _ => some (0, 5)) : CacheState Nat))
        (0, 0, 0)).2.2 = true) :=
  ⟨rfl, by
    have h := C7_invalidate_levels_only Nat (fun _ _ => 7)
      (CacheState.mk 0 0 [] [] (fun _ => some (0, 5))) (0, 0, 0) 0 5 rfl rfl
    exact ⟨h.1, h.2.2.2.2.1⟩⟩

end SubdivMesh
